import Mathlib

/-!
Verification of the turn-taking decision engine of the inner_thoughts_ai
repository: a shallow embedding in Lean 4 of the saliency scoring module
(utils/saliency.py), the thought reservoir (models/thought.py), the
per-agent thought selection (models/participant.py, Agent.select_thoughts)
and the cross-agent arbitration (utils/turn_taking_engine.py,
decide_next_speaker), together with proofs and refutations of the
specification's claims about them.

Python floats are modelled as exact rationals; the one irrational
operation, the square root inside the cosine-similarity denominator, is
carried symbolically (see SimFloat below).  Python lists become Lean
lists, in-place mutation becomes explicit state passing, and the two
sources of randomness (the system1 draw in selection, random.choice in
arbitration) become explicit parameters.
-/

namespace InnerThoughts

/-- Enumeration of mental object kinds (models/enums, as used throughout the
source: MEMORY_LONG_TERM, MEMORY_SHORT_TERM, THOUGHT_SYSTEM1, THOUGHT_SYSTEM2). -/
inductive MentalObjectType where
  | MEMORY_LONG_TERM
  | MEMORY_SHORT_TERM
  | THOUGHT_SYSTEM1
  | THOUGHT_SYSTEM2
deriving DecidableEq

/-- Model of the intrinsic_motivation dict of a Thought
(models/thought.py).  The Python dict maps "reasoning" to a string and
possibly "score" to a float; score = none models a dict with no "score"
key, score = some v models a dict whose "score" entry is v.  The sentinel
used by the thinking engine is some (-1). -/
structure IntrinsicMotivation where
  reasoning : String
  score : Option ℚ
deriving DecidableEq

/-- Model of Thought (models/thought.py), restricted to the fields the
claims touch.  Saliency, a Python float, is modelled as a rational. -/
structure Thought where
  id : String
  agent_id : ℤ
  type : MentalObjectType
  content : String
  turn_number : ℤ
  last_accessed_turn : ℤ
  saliency : ℚ
  intrinsic_motivation : IntrinsicMotivation
deriving DecidableEq

/-- Model of ThoughtReservoir (models/thought.py): a plain insertion-ordered
list of thoughts. -/
structure ThoughtReservoir where
  thoughts : List Thought
deriving DecidableEq

/-- ThoughtReservoir.add (models/thought.py line 44): the source body is a
single self.thoughts.append(thought); there is no duplicate-id check. -/
def ThoughtReservoir.add (r : ThoughtReservoir) (t : Thought) : ThoughtReservoir :=
  { thoughts := r.thoughts ++ [t] }

/-- Stable insertion of x into a list sorted descending by key: x goes
after every element whose key is greater than or equal to key x.  This is
the insertion step of the stable descending sort used to model Python's
sorted(..., key=..., reverse=True), which is a stable sort. -/
def insertDescBy {α : Type} (key : α → ℚ) (x : α) : List α → List α
  | [] => [x]
  | y :: ys => if key y < key x then x :: y :: ys else y :: insertDescBy key x ys

/-- Stable descending sort by a rational key, processing elements left to
right; models Python's sorted(..., key=..., reverse=True) (Timsort is
stable, and a stable descending sort is unique, so any stable descending
sort is a faithful model). -/
def sortDescBy {α : Type} (key : α → ℚ) (l : List α) : List α :=
  l.foldl (fun acc x => insertDescBy key x acc) []

/-- Kind filtering step of retrieve_top_k (models/thought.py lines 54-59):
SYSTEM2 and SYSTEM1 each filter on equality with the requested type, any
other type selects the whole reservoir. -/
def kindFiltered (r : ThoughtReservoir) (thought_type : MentalObjectType) : List Thought :=
  if thought_type = MentalObjectType.THOUGHT_SYSTEM2 then
    r.thoughts.filter (fun t => t.type = thought_type)
  else if thought_type = MentalObjectType.THOUGHT_SYSTEM1 then
    r.thoughts.filter (fun t => t.type = thought_type)
  else
    r.thoughts

/-- ThoughtReservoir.retrieve_top_k (models/thought.py lines 52-61):
filter by kind, sort descending by saliency (stable), keep items at or
above the threshold, return the first k. -/
def ThoughtReservoir.retrieve_top_k (r : ThoughtReservoir) (k : ℕ) (threshold : ℚ)
    (thought_type : MentalObjectType) : List Thought :=
  ((sortDescBy Thought.saliency (kindFiltered r thought_type)).filter
      (fun t => decide (threshold ≤ t.saliency))).take k

/-- State-passing rendering of retrieve_top_k: the source method body
consists only of list comprehensions, sorted(...) and a slice, all of
which allocate fresh lists and assign to nothing, so the post-state is the
unchanged reservoir. -/
def ThoughtReservoir.retrieve_top_k_st (r : ThoughtReservoir) (k : ℕ) (threshold : ℚ)
    (thought_type : MentalObjectType) : List Thought × ThoughtReservoir :=
  (r.retrieve_top_k k threshold thought_type, r)

/- ### Sorting lemmas -/

theorem mem_insertDescBy {α : Type} (key : α → ℚ) (x : α) (l : List α) (a : α) :
    a ∈ insertDescBy key x l ↔ a = x ∨ a ∈ l := by
  induction l with
  | nil => simp [insertDescBy]
  | cons y ys ih =>
      rw [insertDescBy]
      by_cases h : key y < key x
      · rw [if_pos h]
        simp only [List.mem_cons]
      · rw [if_neg h]
        simp only [List.mem_cons, ih]
        tauto

theorem pairwise_insertDescBy {α : Type} (key : α → ℚ) (x : α) (l : List α)
    (hl : l.Pairwise (fun a b => key b ≤ key a)) :
    (insertDescBy key x l).Pairwise (fun a b => key b ≤ key a) := by
  induction l with
  | nil => simp [insertDescBy]
  | cons y ys ih =>
      rcases List.pairwise_cons.mp hl with ⟨hy, hys⟩
      rw [insertDescBy]
      by_cases h : key y < key x
      · rw [if_pos h]
        refine List.pairwise_cons.mpr ⟨?_, hl⟩
        intro b hb
        rcases List.mem_cons.mp hb with rfl | hb
        · exact le_of_lt h
        · exact le_trans (hy b hb) (le_of_lt h)
      · rw [if_neg h]
        refine List.pairwise_cons.mpr ⟨?_, ih hys⟩
        intro b hb
        rcases (mem_insertDescBy key x ys b).mp hb with rfl | hb
        · exact le_of_not_lt h
        · exact hy b hb

theorem pairwise_sortDescBy_aux {α : Type} (key : α → ℚ) (l acc : List α)
    (hacc : acc.Pairwise (fun a b => key b ≤ key a)) :
    (l.foldl (fun acc x => insertDescBy key x acc) acc).Pairwise (fun a b => key b ≤ key a) := by
  induction l generalizing acc with
  | nil => simpa using hacc
  | cons x xs ih => exact ih _ (pairwise_insertDescBy key x acc hacc)

theorem pairwise_sortDescBy {α : Type} (key : α → ℚ) (l : List α) :
    (sortDescBy key l).Pairwise (fun a b => key b ≤ key a) :=
  pairwise_sortDescBy_aux key l [] (by simp)

theorem mem_sortDescBy_aux {α : Type} (key : α → ℚ) (l acc : List α) (a : α) :
    a ∈ l.foldl (fun acc x => insertDescBy key x acc) acc ↔ a ∈ acc ∨ a ∈ l := by
  induction l generalizing acc with
  | nil => simp
  | cons x xs ih =>
      simp only [List.foldl_cons, ih, mem_insertDescBy, List.mem_cons]
      tauto

theorem mem_sortDescBy {α : Type} (key : α → ℚ) (l : List α) (a : α) :
    a ∈ sortDescBy key l ↔ a ∈ l := by
  simp [sortDescBy, mem_sortDescBy_aux]

theorem filter_insertDescBy {α : Type} (key : α → ℚ) (s : ℚ) (x : α) (l : List α)
    (hl : l.Pairwise (fun a b => key b ≤ key a)) :
    (insertDescBy key x l).filter (fun a => decide (key a = s)) =
      l.filter (fun a => decide (key a = s)) ++ if key x = s then [x] else [] := by
  induction l with
  | nil =>
      rw [insertDescBy]
      by_cases hx : key x = s
      · simp [hx]
      · simp [hx]
  | cons y ys ih =>
      rcases List.pairwise_cons.mp hl with ⟨hy, hys⟩
      rw [insertDescBy]
      by_cases h : key y < key x
      · -- x is placed in front; every element of y :: ys has key < key x
        rw [if_pos h]
        have hall : ∀ b ∈ y :: ys, key b < key x := by
          intro b hb
          rcases List.mem_cons.mp hb with rfl | hb
          · exact h
          · exact lt_of_le_of_lt (hy b hb) h
        by_cases hx : key x = s
        · have hnone : (y :: ys).filter (fun a => decide (key a = s)) = [] := by
            apply List.filter_eq_nil_iff.mpr
            intro b hb
            have hblt := hall b hb
            simp only [decide_eq_true_eq]
            intro hbs
            rw [hbs, ← hx] at hblt
            exact lt_irrefl _ hblt
          simp [List.filter_cons, hx, hnone]
        · simp [List.filter_cons, hx]
      · rw [if_neg h]
        rw [List.filter_cons, List.filter_cons]
        by_cases hyv : key y = s
        · simp [hyv, ih hys]
        · simp [hyv, ih hys]

theorem filter_sortDescBy_aux {α : Type} (key : α → ℚ) (s : ℚ) (l acc : List α)
    (hacc : acc.Pairwise (fun a b => key b ≤ key a)) :
    (l.foldl (fun acc x => insertDescBy key x acc) acc).filter (fun a => decide (key a = s)) =
      acc.filter (fun a => decide (key a = s)) ++ l.filter (fun a => decide (key a = s)) := by
  induction l generalizing acc with
  | nil => simp
  | cons x xs ih =>
      simp only [List.foldl_cons]
      rw [ih _ (pairwise_insertDescBy key x acc hacc),
        filter_insertDescBy key s x acc hacc]
      by_cases hx : key x = s
      · simp [hx]
      · simp [hx]

/-- Stability of the descending sort: the elements with any fixed key value
appear in the sorted output in their original relative order. -/
theorem filter_sortDescBy {α : Type} (key : α → ℚ) (s : ℚ) (l : List α) :
    (sortDescBy key l).filter (fun a => decide (key a = s)) =
      l.filter (fun a => decide (key a = s)) := by
  simpa using filter_sortDescBy_aux key s l [] (by simp)

/- ### Facts about retrieve_top_k -/

theorem kindFiltered_sublist (r : ThoughtReservoir) (ty : MentalObjectType) :
    List.Sublist (kindFiltered r ty) r.thoughts := by
  unfold kindFiltered
  by_cases h2 : ty = MentalObjectType.THOUGHT_SYSTEM2
  · rw [if_pos h2]; exact List.filter_sublist _
  · rw [if_neg h2]
    by_cases h1 : ty = MentalObjectType.THOUGHT_SYSTEM1
    · rw [if_pos h1]; exact List.filter_sublist _
    · rw [if_neg h1]

theorem kindFiltered_type (r : ThoughtReservoir) (ty : MentalObjectType)
    (t : Thought) (ht : t ∈ kindFiltered r ty)
    (hty : ty = MentalObjectType.THOUGHT_SYSTEM1 ∨ ty = MentalObjectType.THOUGHT_SYSTEM2) :
    t.type = ty := by
  unfold kindFiltered at ht
  by_cases h2 : ty = MentalObjectType.THOUGHT_SYSTEM2
  · rw [if_pos h2] at ht
    exact of_decide_eq_true (List.mem_filter.mp ht).2
  · rw [if_neg h2] at ht
    by_cases h1 : ty = MentalObjectType.THOUGHT_SYSTEM1
    · rw [if_pos h1] at ht
      exact of_decide_eq_true (List.mem_filter.mp ht).2
    · rcases hty with h | h
      · exact absurd h h1
      · exact absurd h h2

theorem retrieve_top_k_mem (r : ThoughtReservoir) (k : ℕ) (threshold : ℚ)
    (ty : MentalObjectType) (t : Thought) (ht : t ∈ r.retrieve_top_k k threshold ty) :
    t ∈ kindFiltered r ty ∧ threshold ≤ t.saliency := by
  unfold ThoughtReservoir.retrieve_top_k at ht
  have ht2 := (List.take_sublist _ _).subset ht
  rcases List.mem_filter.mp ht2 with ⟨hmem, hdec⟩
  exact ⟨(mem_sortDescBy _ _ _).mp hmem, of_decide_eq_true hdec⟩

theorem retrieve_top_k_subset (r : ThoughtReservoir) (k : ℕ) (threshold : ℚ)
    (ty : MentalObjectType) (t : Thought) (ht : t ∈ r.retrieve_top_k k threshold ty) :
    t ∈ r.thoughts :=
  (kindFiltered_sublist r ty).subset (retrieve_top_k_mem r k threshold ty t ht).1

/-- Claim C4: retrieve_top_k returns at most k items, none below the
threshold, only items of the requested kind when the filter is SYSTEM1 or
SYSTEM2 (all stored items qualify otherwise), all of them stored in the
reservoir, sorted descending by saliency; and (stability, last conjunct)
items of any fixed saliency value appear in their insertion order, earlier
first, as a sublist of the reservoir in store order. -/
theorem C4_retrieve_top_k_spec (r : ThoughtReservoir) (k : ℕ) (threshold : ℚ)
    (ty : MentalObjectType) :
    (r.retrieve_top_k k threshold ty).length ≤ k ∧
    (∀ t ∈ r.retrieve_top_k k threshold ty,
        t ∈ r.thoughts ∧ threshold ≤ t.saliency ∧
        ((ty = MentalObjectType.THOUGHT_SYSTEM1 ∨ ty = MentalObjectType.THOUGHT_SYSTEM2) →
          t.type = ty)) ∧
    (r.retrieve_top_k k threshold ty).Pairwise (fun a b => b.saliency ≤ a.saliency) ∧
    (∀ s : ℚ,
        List.Sublist
          ((r.retrieve_top_k k threshold ty).filter (fun t => decide (t.saliency = s)))
          (r.thoughts.filter (fun t => decide (t.saliency = s)))) := by
  refine ⟨?_, ?_, ?_, ?_⟩
  · unfold ThoughtReservoir.retrieve_top_k
    rw [List.length_take]
    exact min_le_left _ _
  · intro t ht
    rcases retrieve_top_k_mem r k threshold ty t ht with ⟨hmem, hth⟩
    exact ⟨(kindFiltered_sublist r ty).subset hmem, hth,
      fun hty => kindFiltered_type r ty t hmem hty⟩
  · have hsorted := pairwise_sortDescBy Thought.saliency (kindFiltered r ty)
    have hsub : List.Sublist (r.retrieve_top_k k threshold ty)
        (sortDescBy Thought.saliency (kindFiltered r ty)) := by
      unfold ThoughtReservoir.retrieve_top_k
      exact (List.take_sublist _ _).trans (List.filter_sublist _)
    exact hsorted.sublist hsub
  · intro s
    have h1 : List.Sublist
        ((r.retrieve_top_k k threshold ty).filter (fun t => decide (t.saliency = s)))
        ((sortDescBy Thought.saliency (kindFiltered r ty)).filter
          (fun t => decide (t.saliency = s))) := by
      unfold ThoughtReservoir.retrieve_top_k
      exact List.Sublist.filter _ ((List.take_sublist _ _).trans (List.filter_sublist _))
    have h2 := filter_sortDescBy Thought.saliency s (kindFiltered r ty)
    have h3 : List.Sublist ((kindFiltered r ty).filter (fun t => decide (t.saliency = s)))
        (r.thoughts.filter (fun t => decide (t.saliency = s))) :=
      List.Sublist.filter _ (kindFiltered_sublist r ty)
    rw [h2] at h1
    exact h1.trans h3

/-- Claim C10: retrieve_top_k is a pure read.  In the state-passing
rendering of the method, the post-state reservoir is the input reservoir
unchanged, a second call on the post-state returns the identical result
and state, and every returned thought is one of the stored objects (so no
stored item, in particular no last_accessed_turn or saliency field, is
touched). -/
theorem C10_retrieve_top_k_pure (r : ThoughtReservoir) (k : ℕ) (threshold : ℚ)
    (ty : MentalObjectType) :
    (r.retrieve_top_k_st k threshold ty).2 = r ∧
    ((r.retrieve_top_k_st k threshold ty).2.retrieve_top_k_st k threshold ty).1 =
      (r.retrieve_top_k_st k threshold ty).1 ∧
    ((r.retrieve_top_k_st k threshold ty).2.retrieve_top_k_st k threshold ty).2 =
      (r.retrieve_top_k_st k threshold ty).2 ∧
    ∀ t ∈ (r.retrieve_top_k_st k threshold ty).1, t ∈ r.thoughts := by
  refine ⟨rfl, rfl, rfl, ?_⟩
  intro t ht
  exact retrieve_top_k_subset r k threshold ty t ht

/-- Witness for C4: the bound and guarantees at a concrete two-element
reservoir. -/
theorem C4_witness :
    ((ThoughtReservoir.mk
        [{ id := "a", agent_id := 0, type := MentalObjectType.THOUGHT_SYSTEM2, content := "",
           turn_number := 0, last_accessed_turn := 0, saliency := 1,
           intrinsic_motivation := { reasoning := "", score := none } },
         { id := "b", agent_id := 0, type := MentalObjectType.THOUGHT_SYSTEM2, content := "",
           turn_number := 0, last_accessed_turn := 0, saliency := 2,
           intrinsic_motivation := { reasoning := "", score := none } }]).retrieve_top_k 1 0
        MentalObjectType.THOUGHT_SYSTEM2).length ≤ 1 :=
  (C4_retrieve_top_k_spec (ThoughtReservoir.mk
      [{ id := "a", agent_id := 0, type := MentalObjectType.THOUGHT_SYSTEM2, content := "",
         turn_number := 0, last_accessed_turn := 0, saliency := 1,
         intrinsic_motivation := { reasoning := "", score := none } },
       { id := "b", agent_id := 0, type := MentalObjectType.THOUGHT_SYSTEM2, content := "",
         turn_number := 0, last_accessed_turn := 0, saliency := 2,
         intrinsic_motivation := { reasoning := "", score := none } }]) 1 0
    MentalObjectType.THOUGHT_SYSTEM2).1

/-- Witness for C10: on a concrete one-element reservoir the post-state of
the state-passing retrieval is the reservoir itself. -/
theorem C10_witness :
    ((ThoughtReservoir.mk
        [{ id := "a", agent_id := 0, type := MentalObjectType.THOUGHT_SYSTEM1, content := "",
           turn_number := 0, last_accessed_turn := 0, saliency := 1,
           intrinsic_motivation := { reasoning := "", score := none } }]).retrieve_top_k_st 3 0
        MentalObjectType.THOUGHT_SYSTEM1).2 =
      ThoughtReservoir.mk
        [{ id := "a", agent_id := 0, type := MentalObjectType.THOUGHT_SYSTEM1, content := "",
           turn_number := 0, last_accessed_turn := 0, saliency := 1,
           intrinsic_motivation := { reasoning := "", score := none } }] :=
  (C10_retrieve_top_k_pure (ThoughtReservoir.mk
      [{ id := "a", agent_id := 0, type := MentalObjectType.THOUGHT_SYSTEM1, content := "",
         turn_number := 0, last_accessed_turn := 0, saliency := 1,
         intrinsic_motivation := { reasoning := "", score := none } }]) 3 0
    MentalObjectType.THOUGHT_SYSTEM1).1

/-- Claim C8, amended: ThoughtReservoir.add appends unconditionally; there
is no duplicate-id rejection, so the stored collection is the old one with
the new thought at the end even when its id already occurs. -/
theorem C8_add_appends (r : ThoughtReservoir) (t : Thought) :
    (r.add t).thoughts = r.thoughts ++ [t] := rfl

/-- Counterexample to claim C8 as stated: adding two thoughts with the
same id "7" to an empty reservoir is not rejected; both are stored, so the
collection is no longer unique by id. -/
theorem C8_counterexample :
    (((ThoughtReservoir.mk []).add
        { id := "7", agent_id := 0, type := MentalObjectType.THOUGHT_SYSTEM1,
          content := "first", turn_number := 0, last_accessed_turn := 0, saliency := 0,
          intrinsic_motivation := { reasoning := "", score := none } }).add
        { id := "7", agent_id := 0, type := MentalObjectType.THOUGHT_SYSTEM2,
          content := "second", turn_number := 1, last_accessed_turn := 1, saliency := 1,
          intrinsic_motivation := { reasoning := "", score := some 1 } }).thoughts.map
      Thought.id = ["7", "7"] := rfl

/- ### Conversation data model (models/conversation.py) -/

/-- Event type enumeration (models/enums); only UTTERANCE is used by the
modelled code paths. -/
inductive EventType where
  | UTTERANCE
deriving DecidableEq

/-- Model of Event (models/conversation.py lines 8-29).  Embeddings are
rational vectors.  In the Python constructor pred_next_turn defaults to
the empty string; the late-bound turn prediction overwrites it. -/
structure Event where
  participant_id : String
  type : EventType
  content : String
  embedding : List ℚ
  interpretation : String
  interpretation_embedding : List ℚ
  turn_number : ℤ
  thought_id : Option ℤ
  pred_next_turn : String
deriving DecidableEq

/-- A participant as the turn-taking engine sees it: an id and a name. -/
structure PartRef where
  id : String
  name : String
deriving DecidableEq

/-- Model of Conversation (models/conversation.py lines 35-39): context,
registered participants in registration order, append-only event history. -/
structure Conversation where
  context : String
  participants : List PartRef
  event_history : List Event
deriving DecidableEq

/-- Model of the proactivity_config dict of an Agent
(models/participant.py line 76).  Each threshold key may be absent (none);
Agent.select_thoughts reads them with dict.get defaults 0.7, 0.3, 0.85. -/
structure ProactivityConfig where
  im_threshold : Option ℚ
  system1_prob : Option ℚ
  interrupt_threshold : Option ℚ
deriving DecidableEq

/-- Model of Agent (models/participant.py), restricted to the fields
select_thoughts reads: the agent's name and its proactivity config. -/
structure Agent where
  name : String
  proactivity_config : ProactivityConfig
deriving DecidableEq

/-- The score a thought's intrinsic_motivation dict yields under
dict.get("score", 0), as in decide_next_speaker
(utils/turn_taking_engine.py line 103); on thoughts that carry a score
entry it is that score, hence it is also the sort key
intrinsic_motivation["score"] used on the filtered, score-bearing list in
Agent.select_thoughts (models/participant.py line 264). -/
def scoreOrZero (t : Thought) : ℚ := t.intrinsic_motivation.score.getD 0

/-- A thought is top-scored in a batch: it belongs to the batch and no
batch member has a larger score. -/
def TopOf (l : List Thought) (t : Thought) : Prop :=
  t ∈ l ∧ ∀ u ∈ l, scoreOrZero u ≤ scoreOrZero t

/-- Branch step 2 of Agent.select_thoughts (models/participant.py lines
271-301), applied to the already sorted evaluated thoughts: on "anyone",
take the best thought at or above im_threshold, otherwise with probability
system1_prob (the draw rand < system1_prob models random.random() <
system1_prob) the best SYSTEM1 thought; on the agent's own name, the best
thought unconditionally; on any other predicted speaker, the best thought
at or above interrupt_threshold.  The thresholds are read from the config
dict with .get defaults 0.7, 0.3 and 0.85 (lines 249-251). -/
def selectBranch (agent : Agent) (sorted_thoughts : List Thought)
    (predicted_speaker : String) (rand : ℚ) : List Thought :=
  if predicted_speaker = "anyone" then
    match sorted_thoughts.filter
        (fun t => decide (agent.proactivity_config.im_threshold.getD (7/10) ≤ scoreOrZero t)) with
    | h :: _ => [h]
    | [] =>
        if rand < agent.proactivity_config.system1_prob.getD (3/10) then
          match sorted_thoughts.filter
              (fun t => t.type = MentalObjectType.THOUGHT_SYSTEM1) with
          | s :: _ => [s]
          | [] => []
        else []
  else if predicted_speaker = agent.name then
    match sorted_thoughts with
    | h :: _ => [h]
    | [] => []
  else
    match sorted_thoughts.filter
        (fun t => decide (agent.proactivity_config.interrupt_threshold.getD (17/20) ≤ scoreOrZero t)) with
    | h :: _ => [h]
    | [] => []

/-- Agent.select_thoughts (models/participant.py lines 234-301): return []
on an empty batch (line 253); filter to thoughts whose
intrinsic_motivation dict has a "score" key and return [] if none remain
(lines 257-259); sort the survivors descending by score, stably (lines
262-266); read the last event's pred_next_turn (line 269: event_history[-1],
an IndexError on an empty history, modelled by none) and dispatch on it
(selectBranch). -/
def Agent.select_thoughts (agent : Agent) (thoughts : List Thought)
    (conversation : Conversation) (rand : ℚ) : Option (List Thought) :=
  if thoughts.length = 0 then some [] else
  if thoughts.filter (fun t => t.intrinsic_motivation.score.isSome) = [] then some [] else
  match conversation.event_history.getLast? with
  | none => none
  | some lastEvent =>
      some (selectBranch agent
        (sortDescBy scoreOrZero (thoughts.filter (fun t => t.intrinsic_motivation.score.isSome)))
        lastEvent.pred_next_turn rand)

/-- Overwrite pred_next_turn of the last event of a history, as the
assignment last_event.pred_next_turn = predicted_speaker does in
predict_next_speaker (utils/turn_taking_engine.py line 56). -/
def setLastPredNextTurn (es : List Event) (p : String) : List Event :=
  match es.getLast? with
  | some e => es.dropLast ++ [{ e with pred_next_turn := p }]
  | none => es

/-- Validation and write-back step of predict_next_speaker
(utils/turn_taking_engine.py lines 45-58), given the stripped completion
text: an answer that is neither a participant name nor "anyone" becomes
"anyone" with no write-back; a valid non-"anyone" name is written into the
last event's pred_next_turn (when a last event exists) and returned;
"anyone" is returned without touching the history.  The exception path
(lines 60-63) likewise returns "anyone" without any write. -/
def predict_next_speaker_update (conversation : Conversation) (response_text : String) :
    String × Conversation :=
  let predicted_speaker := response_text.trim
  if predicted_speaker ∈ (conversation.participants.map PartRef.name) ++ ["anyone"] then
    if conversation.event_history ≠ [] ∧ predicted_speaker ≠ "anyone" then
      (predicted_speaker,
        { conversation with
          event_history := setLastPredNextTurn conversation.event_history predicted_speaker })
    else (predicted_speaker, conversation)
  else ("anyone", conversation)

/- ### Facts about sortDescBy heads and select_thoughts branches -/

theorem sortDescBy_head_max {α : Type} (key : α → ℚ) (l : List α) (h : α) (rest : List α)
    (heq : sortDescBy key l = h :: rest) : h ∈ l ∧ ∀ u ∈ l, key u ≤ key h := by
  have hp := pairwise_sortDescBy key l
  rw [heq] at hp
  rcases List.pairwise_cons.mp hp with ⟨hmax, _⟩
  constructor
  · have hh : h ∈ sortDescBy key l := by
      rw [heq]; exact List.mem_cons_self _ _
    exact (mem_sortDescBy key l h).mp hh
  · intro u hu
    have hu2 : u ∈ sortDescBy key l := (mem_sortDescBy key l u).mpr hu
    rw [heq] at hu2
    rcases List.mem_cons.mp hu2 with rfl | hmem
    · exact le_refl _
    · exact hmax u hmem

theorem sortDescBy_ne_nil {α : Type} (key : α → ℚ) (l : List α) (hl : l ≠ []) :
    sortDescBy key l ≠ [] := by
  intro hnil
  rcases List.exists_mem_of_ne_nil l hl with ⟨a, ha⟩
  have : a ∈ sortDescBy key l := (mem_sortDescBy key l a).mpr ha
  rw [hnil] at this
  exact absurd this (List.not_mem_nil a)

theorem selectBranch_subset (agent : Agent) (sorted_thoughts : List Thought)
    (predicted_speaker : String) (rand : ℚ) :
    ∀ t ∈ selectBranch agent sorted_thoughts predicted_speaker rand, t ∈ sorted_thoughts := by
  intro t ht
  unfold selectBranch at ht
  by_cases h1 : predicted_speaker = "anyone"
  · rw [if_pos h1] at ht
    rcases hfm : sorted_thoughts.filter
        (fun t => decide (agent.proactivity_config.im_threshold.getD (7/10) ≤ scoreOrZero t)) with
      _ | ⟨h, tl⟩
    · rw [hfm] at ht
      by_cases h2 : rand < agent.proactivity_config.system1_prob.getD (3/10)
      · rw [if_pos h2] at ht
        rcases hfs : sorted_thoughts.filter
            (fun t => t.type = MentalObjectType.THOUGHT_SYSTEM1) with _ | ⟨s, tl2⟩
        · rw [hfs] at ht
          exact absurd ht (List.not_mem_nil t)
        · rw [hfs] at ht
          rcases List.mem_singleton.mp ht with rfl
          have : t ∈ sorted_thoughts.filter
              (fun t => t.type = MentalObjectType.THOUGHT_SYSTEM1) := by
            rw [hfs]; exact List.mem_cons_self _ _
          exact List.mem_of_mem_filter this
      · rw [if_neg h2] at ht
        exact absurd ht (List.not_mem_nil t)
    · rw [hfm] at ht
      rcases List.mem_singleton.mp ht with rfl
      have : t ∈ sorted_thoughts.filter
          (fun t => decide (agent.proactivity_config.im_threshold.getD (7/10) ≤ scoreOrZero t)) := by
        rw [hfm]; exact List.mem_cons_self _ _
      exact List.mem_of_mem_filter this
  · rw [if_neg h1] at ht
    by_cases h2 : predicted_speaker = agent.name
    · rw [if_pos h2] at ht
      rcases hs : sorted_thoughts with _ | ⟨h, tl⟩
      · rw [hs] at ht
        exact absurd ht (List.not_mem_nil t)
      · rw [hs] at ht
        rcases List.mem_singleton.mp ht with rfl
        exact List.mem_cons_self _ _
    · rw [if_neg h2] at ht
      rcases hfi : sorted_thoughts.filter
          (fun t => decide (agent.proactivity_config.interrupt_threshold.getD (17/20) ≤ scoreOrZero t)) with
        _ | ⟨h, tl⟩
      · rw [hfi] at ht
        exact absurd ht (List.not_mem_nil t)
      · rw [hfi] at ht
        rcases List.mem_singleton.mp ht with rfl
        have : t ∈ sorted_thoughts.filter
            (fun t => decide (agent.proactivity_config.interrupt_threshold.getD (17/20) ≤ scoreOrZero t)) := by
          rw [hfi]; exact List.mem_cons_self _ _
        exact List.mem_of_mem_filter this

theorem selectBranch_length (agent : Agent) (sorted_thoughts : List Thought)
    (predicted_speaker : String) (rand : ℚ) :
    (selectBranch agent sorted_thoughts predicted_speaker rand).length ≤ 1 := by
  unfold selectBranch
  repeat' split
  all_goals simp

theorem select_thoughts_eq (agent : Agent) (thoughts : List Thought)
    (conversation : Conversation) (rand : ℚ) (e : Event)
    (hlast : conversation.event_history.getLast? = some e)
    (hne : thoughts ≠ [])
    (hev : ∀ t ∈ thoughts, t.intrinsic_motivation.score.isSome = true) :
    agent.select_thoughts thoughts conversation rand =
      some (selectBranch agent (sortDescBy scoreOrZero thoughts) e.pred_next_turn rand) := by
  unfold Agent.select_thoughts
  have hlen : ¬ thoughts.length = 0 := by
    intro h
    exact hne (List.length_eq_zero.mp h)
  rw [if_neg hlen]
  have hfe : thoughts.filter (fun t => t.intrinsic_motivation.score.isSome) = thoughts :=
    List.filter_eq_self.mpr hev
  rw [hfe, if_neg hne, hlast]

theorem select_thoughts_other (agent : Agent) (thoughts : List Thought)
    (conversation : Conversation) (rand : ℚ) (e : Event)
    (hlast : conversation.event_history.getLast? = some e)
    (hne : thoughts ≠ [])
    (hev : ∀ t ∈ thoughts, t.intrinsic_motivation.score.isSome = true)
    (hp1 : e.pred_next_turn ≠ "anyone") (hp2 : e.pred_next_turn ≠ agent.name) :
    ∃ t, TopOf thoughts t ∧
      agent.select_thoughts thoughts conversation rand =
        some (if agent.proactivity_config.interrupt_threshold.getD (17/20) ≤ scoreOrZero t
              then [t] else []) := by
  rcases hs : sortDescBy scoreOrZero thoughts with _ | ⟨h, rest⟩
  · exact absurd hs (sortDescBy_ne_nil _ _ hne)
  · have htop := sortDescBy_head_max scoreOrZero thoughts h rest hs
    refine ⟨h, ⟨htop.1, htop.2⟩, ?_⟩
    rw [select_thoughts_eq agent thoughts conversation rand e hlast hne hev]
    unfold selectBranch
    rw [if_neg hp1, if_neg hp2, hs]
    by_cases hth : agent.proactivity_config.interrupt_threshold.getD (17/20) ≤ scoreOrZero h
    · rw [if_pos hth]
      rw [List.filter_cons_of_pos (by simpa using hth)]
    · rw [if_neg hth]
      have hnil : (h :: rest).filter
          (fun t => decide (agent.proactivity_config.interrupt_threshold.getD (17/20) ≤ scoreOrZero t)) = [] := by
        apply List.filter_eq_nil_iff.mpr
        intro u hu
        simp only [decide_eq_true_eq]
        intro habs
        have hu2 : u ∈ thoughts := (mem_sortDescBy scoreOrZero thoughts u).mp (hs ▸ hu)
        exact hth (le_trans habs (htop.2 u hu2))
      rw [hnil]

theorem select_thoughts_self (agent : Agent) (thoughts : List Thought)
    (conversation : Conversation) (rand : ℚ) (e : Event)
    (hlast : conversation.event_history.getLast? = some e)
    (hne : thoughts ≠ [])
    (hev : ∀ t ∈ thoughts, t.intrinsic_motivation.score.isSome = true)
    (hp2 : e.pred_next_turn = agent.name) (hp1 : agent.name ≠ "anyone") :
    ∃ t, TopOf thoughts t ∧
      agent.select_thoughts thoughts conversation rand = some [t] := by
  rcases hs : sortDescBy scoreOrZero thoughts with _ | ⟨h, rest⟩
  · exact absurd hs (sortDescBy_ne_nil _ _ hne)
  · have htop := sortDescBy_head_max scoreOrZero thoughts h rest hs
    refine ⟨h, ⟨htop.1, htop.2⟩, ?_⟩
    rw [select_thoughts_eq agent thoughts conversation rand e hlast hne hev]
    unfold selectBranch
    rw [if_neg (hp2 ▸ hp1), if_pos hp2, hs]

theorem select_thoughts_anyone_high (agent : Agent) (thoughts : List Thought)
    (conversation : Conversation) (rand : ℚ) (e : Event)
    (hlast : conversation.event_history.getLast? = some e)
    (hne : thoughts ≠ [])
    (hev : ∀ t ∈ thoughts, t.intrinsic_motivation.score.isSome = true)
    (hp : e.pred_next_turn = "anyone")
    (hhigh : ∃ t, TopOf thoughts t ∧
      agent.proactivity_config.im_threshold.getD (7/10) ≤ scoreOrZero t) :
    ∃ t, TopOf thoughts t ∧
      agent.select_thoughts thoughts conversation rand = some [t] := by
  rcases hs : sortDescBy scoreOrZero thoughts with _ | ⟨h, rest⟩
  · exact absurd hs (sortDescBy_ne_nil _ _ hne)
  · have htop := sortDescBy_head_max scoreOrZero thoughts h rest hs
    refine ⟨h, ⟨htop.1, htop.2⟩, ?_⟩
    rw [select_thoughts_eq agent thoughts conversation rand e hlast hne hev]
    unfold selectBranch
    rw [if_pos hp, hs]
    rcases hhigh with ⟨t, ⟨htm, _⟩, hth⟩
    have hh : agent.proactivity_config.im_threshold.getD (7/10) ≤ scoreOrZero h :=
      le_trans hth (htop.2 t htm)
    rw [List.filter_cons_of_pos (by simpa using hh)]

/-- Claim C1, amended: for a nonempty batch in which every thought carries
an evaluated score, select_thoughts returns at most one thought; when the
last event's prediction equals the agent's name and that name is not the
literal string "anyone", it returns the single top-scored thought
unconditionally; when the prediction names someone else (neither the
agent's name nor "anyone"), it returns the top-scored thought exactly when
its score reaches interrupt_threshold and otherwise nothing; when the
prediction is "anyone" and the top score reaches im_threshold, it returns
the top-scored thought.  The amendment (forced by C1_counterexample) is
the guard on the self-name clause: an agent literally named "anyone" is
dispatched to the "anyone" branch. -/
theorem C1_select_thoughts_branches (agent : Agent) (thoughts : List Thought)
    (conversation : Conversation) (rand : ℚ) (e : Event)
    (hlast : conversation.event_history.getLast? = some e)
    (hne : thoughts ≠ [])
    (hev : ∀ t ∈ thoughts, t.intrinsic_motivation.score.isSome = true) :
    (∀ l, agent.select_thoughts thoughts conversation rand = some l → l.length ≤ 1) ∧
    (e.pred_next_turn = agent.name → agent.name ≠ "anyone" →
      ∃ t, TopOf thoughts t ∧
        agent.select_thoughts thoughts conversation rand = some [t]) ∧
    (e.pred_next_turn ≠ agent.name → e.pred_next_turn ≠ "anyone" →
      ∃ t, TopOf thoughts t ∧
        agent.select_thoughts thoughts conversation rand =
          some (if agent.proactivity_config.interrupt_threshold.getD (17/20) ≤ scoreOrZero t
                then [t] else [])) ∧
    (e.pred_next_turn = "anyone" →
      (∃ t, TopOf thoughts t ∧
        agent.proactivity_config.im_threshold.getD (7/10) ≤ scoreOrZero t) →
      ∃ t, TopOf thoughts t ∧
        agent.select_thoughts thoughts conversation rand = some [t]) := by
  refine ⟨?_, ?_, ?_, ?_⟩
  · intro l hl
    rw [select_thoughts_eq agent thoughts conversation rand e hlast hne hev] at hl
    rw [← Option.some.inj hl]
    exact selectBranch_length _ _ _ _
  · intro hp2 hp1
    exact select_thoughts_self agent thoughts conversation rand e hlast hne hev hp2 hp1
  · intro hp2 hp1
    exact select_thoughts_other agent thoughts conversation rand e hlast hne hev hp1 hp2
  · intro hp hhigh
    exact select_thoughts_anyone_high agent thoughts conversation rand e hlast hne hev hp hhigh

/-- Concrete sample thought used by witnesses and counterexamples: a
thought of the given kind whose intrinsic_motivation dict carries the
given score entry (none models a dict with no "score" key). -/
def mkThought (ty : MentalObjectType) (sc : Option ℚ) : Thought :=
  { id := "0", agent_id := 0, type := ty, content := "",
    turn_number := 0, last_accessed_turn := 0, saliency := 0,
    intrinsic_motivation := { reasoning := "", score := sc } }

/-- Concrete sample event whose pred_next_turn annotation is the given
string. -/
def mkEvent (pred : String) : Event :=
  { participant_id := "1", type := EventType.UTTERANCE, content := "",
    embedding := [], interpretation := "", interpretation_embedding := [],
    turn_number := 0, thought_id := none, pred_next_turn := pred }

/-- Concrete sample conversation whose single event carries the given
pred_next_turn annotation. -/
def mkConv (pred : String) : Conversation :=
  { context := "", participants := [], event_history := [mkEvent pred] }

/-- Witness for C1: a concrete agent "Alice" whose name is predicted, with
one evaluated thought at score 0.9; the self-name clause yields that
thought. -/
theorem C1_witness :
    ∃ t, TopOf [mkThought MentalObjectType.THOUGHT_SYSTEM2 (some (9/10))] t ∧
      Agent.select_thoughts ⟨"Alice", ⟨none, none, none⟩⟩
        [mkThought MentalObjectType.THOUGHT_SYSTEM2 (some (9/10))] (mkConv "Alice") 0 =
        some [t] :=
  (C1_select_thoughts_branches ⟨"Alice", ⟨none, none, none⟩⟩
      [mkThought MentalObjectType.THOUGHT_SYSTEM2 (some (9/10))] (mkConv "Alice")
      0 (mkEvent "Alice") rfl (by decide) (by decide)).2.1 rfl (by decide)

/-- Counterexample to claim C1 as stated: an agent literally named
"anyone" whose own name is predicted, so the claim demands the top-scored
thought be returned unconditionally; instead the "anyone" branch fires
first, and with im_threshold 1, a top score of 0, system1_prob 0 and
random draw 1 the agent selects nothing. -/
theorem C1_counterexample :
    (Agent.select_thoughts ⟨"anyone", ⟨some 1, some 0, some 1⟩⟩
        [mkThought MentalObjectType.THOUGHT_SYSTEM2 (some 0)] (mkConv "anyone") 1 =
      some []) ∧
    (mkEvent "anyone").pred_next_turn = (Agent.mk "anyone" ⟨some 1, some 0, some 1⟩).name := by
  constructor
  · decide
  · rfl

/-- Claim C5, amended: select_thoughts never selects a thought whose
intrinsic_motivation dict lacks a "score" entry, and when every thought in
the batch lacks one the selection is empty.  The filter keeps any thought
whose dict has a "score" key regardless of its value, so thoughts still
carrying the -1.0 sentinel (written by the thinking engine before
evaluation and on failed evaluation) pass the filter and can be selected
(see C5_counterexample). -/
theorem C5_score_key_filter (agent : Agent) (thoughts : List Thought)
    (conversation : Conversation) (rand : ℚ) :
    (∀ l, agent.select_thoughts thoughts conversation rand = some l →
      ∀ t ∈ l, t.intrinsic_motivation.score.isSome = true) ∧
    ((∀ t ∈ thoughts, t.intrinsic_motivation.score = none) →
      agent.select_thoughts thoughts conversation rand = some []) := by
  constructor
  · intro l hl t ht
    unfold Agent.select_thoughts at hl
    by_cases h0 : thoughts.length = 0
    · rw [if_pos h0] at hl
      rw [← Option.some.inj hl] at ht
      exact absurd ht (List.not_mem_nil t)
    · rw [if_neg h0] at hl
      by_cases hf : thoughts.filter (fun t => t.intrinsic_motivation.score.isSome) = []
      · rw [if_pos hf] at hl
        rw [← Option.some.inj hl] at ht
        exact absurd ht (List.not_mem_nil t)
      · rw [if_neg hf] at hl
        rcases hlast : conversation.event_history.getLast? with _ | e
        · rw [hlast] at hl
          exact absurd hl (by simp)
        · rw [hlast] at hl
          rw [← Option.some.inj hl] at ht
          have h1 := selectBranch_subset _ _ _ _ t ht
          have h2 := (mem_sortDescBy scoreOrZero _ t).mp h1
          exact (List.mem_filter.mp h2).2
  · intro hall
    unfold Agent.select_thoughts
    by_cases h0 : thoughts.length = 0
    · rw [if_pos h0]
    · rw [if_neg h0]
      have hf : thoughts.filter (fun t => t.intrinsic_motivation.score.isSome) = [] := by
        apply List.filter_eq_nil_iff.mpr
        intro t ht
        rw [hall t ht]
        simp
      rw [if_pos hf]

/-- Witness for C5: a batch whose single thought has no "score" entry
yields the empty selection. -/
theorem C5_witness :
    Agent.select_thoughts ⟨"A", ⟨some 1, some 0, some 1⟩⟩
      [mkThought MentalObjectType.THOUGHT_SYSTEM2 none] (mkConv "A") 0 = some [] :=
  (C5_score_key_filter ⟨"A", ⟨some 1, some 0, some 1⟩⟩
    [mkThought MentalObjectType.THOUGHT_SYSTEM2 none] (mkConv "A") 0).2 (by decide)

/-- Counterexample to claim C5 as stated: a batch whose only thought still
carries the unevaluated sentinel score -1 is predicted to hold the floor
(prediction equals the agent's name), and select_thoughts selects that
sentinel thought instead of returning the empty list. -/
theorem C5_counterexample :
    (Agent.select_thoughts ⟨"A", ⟨some 1, some 0, some 1⟩⟩
        [mkThought MentalObjectType.THOUGHT_SYSTEM2 (some (-1))] (mkConv "A") 0 =
      some [mkThought MentalObjectType.THOUGHT_SYSTEM2 (some (-1))]) ∧
    (mkThought MentalObjectType.THOUGHT_SYSTEM2 (some (-1))).intrinsic_motivation.score =
      some (-1) := by
  constructor
  · decide
  · rfl

/-- Claim C9, amended: predict_next_speaker writes a prediction back into
the last event only when the validated answer is not "anyone", so an
answer of "anyone" (or an invalid one, or a failure) leaves the
constructor default pred_next_turn = "" in place; and when the last
event's pred_next_turn is the empty string and the agent's name is
nonempty, select_thoughts takes the predicted-other-speaker branch,
returning the top-scored thought exactly when its score reaches
interrupt_threshold (independently of im_threshold, system1_prob and the
random draw).  The amendment (forced by C9_counterexample) is the
nonempty-name guard: an agent named "" matches the default prediction and
is dispatched to the own-turn branch. -/
theorem C9_default_prediction_gate (agent : Agent) (thoughts : List Thought)
    (conversation : Conversation) (rand : ℚ) (e : Event)
    (hname : agent.name ≠ "")
    (hlast : conversation.event_history.getLast? = some e)
    (hpred : e.pred_next_turn = "")
    (hne : thoughts ≠ [])
    (hev : ∀ t ∈ thoughts, t.intrinsic_motivation.score.isSome = true) :
    (∀ (c : Conversation) (resp : String),
        (predict_next_speaker_update c resp).1 = "anyone" →
        (predict_next_speaker_update c resp).2 = c) ∧
    (∃ t, TopOf thoughts t ∧
      agent.select_thoughts thoughts conversation rand =
        some (if agent.proactivity_config.interrupt_threshold.getD (17/20) ≤ scoreOrZero t
              then [t] else [])) := by
  constructor
  · intro c resp h
    unfold predict_next_speaker_update at h ⊢
    by_cases hv : resp.trim ∈ (c.participants.map PartRef.name) ++ ["anyone"]
    · rw [if_pos hv] at h ⊢
      by_cases hw : c.event_history ≠ [] ∧ resp.trim ≠ "anyone"
      · rw [if_pos hw] at h
        exact absurd h hw.2
      · rw [if_neg hw]
    · rw [if_neg hv]
  · apply select_thoughts_other agent thoughts conversation rand e hlast hne hev
    · rw [hpred]
      intro hcon
      exact absurd hcon (by decide)
    · rw [hpred]
      intro hcon
      exact hname hcon.symm

/-- Witness for C9: agent "Bob" with interrupt_threshold 0 and a thought
scored 0 under the default empty prediction; the interrupt gate admits the
thought. -/
theorem C9_witness :
    (∀ (c : Conversation) (resp : String),
        (predict_next_speaker_update c resp).1 = "anyone" →
        (predict_next_speaker_update c resp).2 = c) ∧
    (∃ t, TopOf [mkThought MentalObjectType.THOUGHT_SYSTEM2 (some 0)] t ∧
      Agent.select_thoughts ⟨"Bob", ⟨some 1, some 0, some 0⟩⟩
        [mkThought MentalObjectType.THOUGHT_SYSTEM2 (some 0)] (mkConv "") 0 =
        some (if (Agent.mk "Bob" ⟨some 1, some 0, some 0⟩).proactivity_config.interrupt_threshold.getD
                  (17/20) ≤ scoreOrZero t
              then [t] else [])) :=
  C9_default_prediction_gate ⟨"Bob", ⟨some 1, some 0, some 0⟩⟩
    [mkThought MentalObjectType.THOUGHT_SYSTEM2 (some 0)] (mkConv "") 0 (mkEvent "")
    (by decide) rfl rfl (by decide) (by decide)

/-- Counterexample to claim C9 as stated: an agent whose name is the empty
string matches the constructor-default prediction "", so select_thoughts
takes the own-turn branch and returns the top thought even though its
score 0 is below the interrupt_threshold 1, where the claim demands the
empty selection. -/
theorem C9_counterexample :
    (Agent.select_thoughts ⟨"", ⟨some 1, some 0, some 1⟩⟩
        [mkThought MentalObjectType.THOUGHT_SYSTEM2 (some 0)] (mkConv "") 0 =
      some [mkThought MentalObjectType.THOUGHT_SYSTEM2 (some 0)]) ∧
    ((0 : ℚ) <
      (Agent.mk "" ⟨some 1, some 0, some 1⟩).proactivity_config.interrupt_threshold.getD (17/20)) := by
  constructor
  · decide
  · decide

/- ### Arbitration (utils/turn_taking_engine.py, decide_next_speaker) -/

/-- The per-agent selections collected by decide_next_speaker
(utils/turn_taking_engine.py lines 79-90): agents paired with the result
of their act call (for a failed or timed-out pipeline the result degrades
to the empty list upstream), keeping only agents that returned thoughts.
The Python dict all_agent_thoughts is keyed by agent objects and
preserves insertion order, which for distinct agents is registration
order, i.e. the order of this list. -/
def selections {α : Type} (agents : List α) (results : List (List Thought)) :
    List (α × List Thought) :=
  (agents.zip results).filter (fun p => !p.2.isEmpty)

/-- One comparison step of the arbitration loop (utils/turn_taking_engine.py
lines 101-107): a candidate replaces the running best exactly when its
dict .get("score", 0) score strictly exceeds the running highest score. -/
def arbStep {α : Type} (st : Option (α × Thought) × ℚ) (p : α × Thought) :
    Option (α × Thought) × ℚ :=
  if st.2 < scoreOrZero p.2 then (some p, scoreOrZero p.2) else st

/-- The nested best-thought loop of decide_next_speaker
(utils/turn_taking_engine.py lines 96-107), starting from best = None and
highest_score = -1. -/
def arbitrate {α : Type} (sel : List (α × List Thought)) : Option (α × Thought) × ℚ :=
  sel.foldl (fun st p => p.2.foldl (fun st2 t => arbStep st2 (p.1, t)) st) (none, -1)

/-- The candidate (agent, thought) pairs in iteration order of the nested
loops: registration order of agents, selection order within an agent. -/
def selectionPairs {α : Type} (sel : List (α × List Thought)) : List (α × Thought) :=
  sel.flatMap (fun p => p.2.map (fun t => (p.1, t)))

/-- A draw of one element of a list, modelling random.choice: every actual
draw is the element at some index. -/
def pickMod {β : Type} (n : ℕ) (l : List β) : Option β := l.get? (n % l.length)

/-- decide_next_speaker (utils/turn_taking_engine.py lines 66-119) as a
function of the agents, their act results, the external articulation call
and the two random.choice draws of the fallback path: silence when no
agent selected anything; otherwise the best-scoring candidate is
articulated; when the loop found no candidate with score above the initial
-1, a random agent and thought are articulated.  The two inner none
branches are unreachable, since entries of selections are nonempty lists
and the selections list itself is nonempty past the first guard. -/
def decide_next_speaker {α : Type} (agents : List α) (results : List (List Thought))
    (articulate : α → Thought → String) (ri rj : ℕ) : Option α × String :=
  if (selections agents results).isEmpty then (none, "") else
  match (arbitrate (selections agents results)).1 with
  | some p => (some p.1, articulate p.1 p.2)
  | none =>
      match pickMod ri (selections agents results) with
      | some q =>
          match pickMod rj q.2 with
          | some t => (some q.1, articulate q.1 t)
          | none => (none, "")
      | none => (none, "")

theorem arbitrate_eq_foldl {α : Type} (sel : List (α × List Thought)) :
    arbitrate sel = (selectionPairs sel).foldl arbStep (none, -1) := by
  suffices h : ∀ (init : Option (α × Thought) × ℚ),
      sel.foldl (fun st p => p.2.foldl (fun st2 t => arbStep st2 (p.1, t)) st) init =
        (selectionPairs sel).foldl arbStep init by
    exact h _
  intro init
  induction sel generalizing init with
  | nil => rfl
  | cons p ps ih =>
      simp only [selectionPairs, List.flatMap_cons, List.foldl_append, List.foldl_map,
        List.foldl_cons]
      exact ih _

theorem arbFold_spec {α : Type} (l : List (α × Thought)) (best : Option (α × Thought))
    (hs : ℚ) :
    (l.foldl arbStep (best, hs) = (best, hs) ∧ ∀ q ∈ l, scoreOrZero q.2 ≤ hs) ∨
    (∃ pre w post, l = pre ++ w :: post ∧
      l.foldl arbStep (best, hs) = (some w, scoreOrZero w.2) ∧
      hs < scoreOrZero w.2 ∧
      (∀ q ∈ pre, scoreOrZero q.2 < scoreOrZero w.2) ∧
      (∀ q ∈ post, scoreOrZero q.2 ≤ scoreOrZero w.2)) := by
  induction l generalizing best hs with
  | nil =>
      left
      exact ⟨rfl, by simp⟩
  | cons p ps ih =>
      by_cases hc : hs < scoreOrZero p.2
      · have hstep : arbStep (best, hs) p = (some p, scoreOrZero p.2) := by
          unfold arbStep
          rw [if_pos hc]
        rw [List.foldl_cons, hstep]
        rcases ih (some p) (scoreOrZero p.2) with ⟨heq, hall⟩ |
          ⟨pre, w, post, hsplit, heq, hlt, hpre, hpost⟩
        · right
          exact ⟨[], p, ps, by simp, heq, hc, by simp, hall⟩
        · right
          refine ⟨p :: pre, w, post, by rw [hsplit, List.cons_append], heq, lt_trans hc hlt, ?_, hpost⟩
          intro q hq
          rcases List.mem_cons.mp hq with rfl | hq
          · exact hlt
          · exact hpre q hq
      · have hstep : arbStep (best, hs) p = (best, hs) := by
          unfold arbStep
          rw [if_neg hc]
        rw [List.foldl_cons, hstep]
        rcases ih best hs with ⟨heq, hall⟩ | ⟨pre, w, post, hsplit, heq, hlt, hpre, hpost⟩
        · left
          refine ⟨heq, ?_⟩
          intro q hq
          rcases List.mem_cons.mp hq with rfl | hq
          · exact le_of_not_lt hc
          · exact hall q hq
        · right
          refine ⟨p :: pre, w, post, by rw [hsplit, List.cons_append], heq, hlt, ?_, hpost⟩
          intro q hq
          rcases List.mem_cons.mp hq with rfl | hq
          · exact lt_of_le_of_lt (le_of_not_lt hc) hlt
          · exact hpre q hq

/-- Claim C2, amended: whenever some candidate's score exceeds the initial
highest_score of -1, decide_next_speaker articulates the candidate pair
with the strictly highest .get("score", 0) score, and on an exact score
tie the pair seen first wins, where the candidate order is agent
registration order (and selection order within one agent): the winner
splits the candidate list so that everything before it scores strictly
less and everything after it scores at most as much.  The amendment
(forced by C2_counterexample) is the score-above-sentinel hypothesis: when
every candidate scores at or below -1, the source falls back to
random.choice among the candidates instead. -/
theorem C2_decide_next_speaker_argmax {α : Type} (agents : List α)
    (results : List (List Thought)) (articulate : α → Thought → String) (ri rj : ℕ)
    (hsome : ∃ q ∈ selectionPairs (selections agents results), -1 < scoreOrZero q.2) :
    ∃ pre w post,
      selectionPairs (selections agents results) = pre ++ w :: post ∧
      decide_next_speaker agents results articulate ri rj =
        (some w.1, articulate w.1 w.2) ∧
      (∀ q ∈ pre, scoreOrZero q.2 < scoreOrZero w.2) ∧
      (∀ q ∈ post, scoreOrZero q.2 ≤ scoreOrZero w.2) := by
  rcases arbFold_spec (selectionPairs (selections agents results)) none (-1) with
    ⟨heq, hall⟩ | ⟨pre, w, post, hsplit, heq, hlt, hpre, hpost⟩
  · exfalso
    rcases hsome with ⟨q, hq, hqs⟩
    exact absurd (hall q hq) (not_le.mpr hqs)
  · refine ⟨pre, w, post, hsplit, ?_, hpre, hpost⟩
    have hselne : ¬ (selections agents results).isEmpty = true := by
      rcases hsome with ⟨q, hq, _⟩
      intro hemp
      rw [List.isEmpty_iff.mp hemp] at hq
      simp [selectionPairs] at hq
    unfold decide_next_speaker
    rw [if_neg hselne]
    have harb : (arbitrate (selections agents results)).1 = some w := by
      rw [arbitrate_eq_foldl, heq]
    rw [harb]

/-- Witness for C2: one agent "A" with one thought scored 1; the argmax
characterization applies with the sentinel hypothesis discharged. -/
theorem C2_witness :
    ∃ pre w post,
      selectionPairs (selections ["A"]
          [[mkThought MentalObjectType.THOUGHT_SYSTEM2 (some 1)]]) = pre ++ w :: post ∧
      decide_next_speaker ["A"] [[mkThought MentalObjectType.THOUGHT_SYSTEM2 (some 1)]]
        (fun a _ => a) 0 0 = (some w.1, (fun (a : String) (_ : Thought) => a) w.1 w.2) ∧
      (∀ q ∈ pre, scoreOrZero q.2 < scoreOrZero w.2) ∧
      (∀ q ∈ post, scoreOrZero q.2 ≤ scoreOrZero w.2) :=
  C2_decide_next_speaker_argmax ["A"] [[mkThought MentalObjectType.THOUGHT_SYSTEM2 (some 1)]]
    (fun a _ => a) 0 0 (by decide)

/-- Counterexample to claim C2 as stated: agents "A" then "B" each select
one thought and the scores tie exactly (both carry -1), so the claim
demands that "A", registered first, win; but with every score at or below
the initial highest_score the loop keeps best = None and the code takes
the random.choice fallback, which with draw index 1 returns "B". -/
theorem C2_counterexample :
    (decide_next_speaker ["A", "B"]
        [[mkThought MentalObjectType.THOUGHT_SYSTEM2 (some (-1))],
          [mkThought MentalObjectType.THOUGHT_SYSTEM2 (some (-1))]]
        (fun a _ => a) 1 0 = (some "B", "B")) ∧
    (some "B" : Option String) ≠ some "A" := by
  constructor
  · decide
  · decide

/-- Claim C7: when every agent's pipeline produced no selection this turn
(a failed or timed-out pipeline degrades to an empty act result upstream,
and the thinking-engine evaluation failure path assigns a sentinel score
rather than raising), decide_next_speaker returns (None, "") — and, being
a total function of its inputs, it raises nothing. -/
theorem C7_all_empty_silence {α : Type} (agents : List α) (results : List (List Thought))
    (articulate : α → Thought → String) (ri rj : ℕ)
    (hall : ∀ r ∈ results, r = []) :
    decide_next_speaker agents results articulate ri rj = (none, "") := by
  have hsel : selections agents results = [] := by
    unfold selections
    apply List.filter_eq_nil_iff.mpr
    rintro ⟨a, b⟩ hp
    have hb : b ∈ results := (List.of_mem_zip hp).2
    simp [hall b hb]
  unfold decide_next_speaker
  rw [hsel]
  simp

/-- Witness for C7: one agent whose act result is empty; the turn is
silent. -/
theorem C7_witness :
    decide_next_speaker ["A"] [[]] (fun (a : String) (_ : Thought) => a) 0 0 = (none, "") :=
  C7_all_empty_silence ["A"] [[]] (fun a _ => a) 0 0 (by decide)

/- ### Saliency engine (utils/saliency.py) -/

/-- Rational dot product, modelling np.dot on equal-length float vectors. -/
def dotQ (a b : List ℚ) : ℚ := (List.zipWith (fun x y => x * y) a b).sum

/-- Squared Euclidean norm: np.linalg.norm(v) squared. -/
def normSq (v : List ℚ) : ℚ := dotQ v v

/-- Value domain of the similarity and saliency computations.  val n r
denotes the real number n / sqrt r (every value produced has r > 0); nan
is the float NaN that numpy's division by a zero norm produces.  Exact
rationals appear only scaled into the numerator, so this domain is closed
under every operation of utils/saliency.py and has decidable order. -/
inductive SimFloat where
  | nan
  | val (num : ℚ) (radicand : ℚ)
deriving DecidableEq

/-- compute_similarity (utils/saliency.py lines 6-8):
np.dot(e1, e2) / (norm(e1) * norm(e2)) = dot / sqrt(normSq e1 * normSq e2).
There is no zero-norm check in the source: when either norm is zero that
vector is the zero vector, the numerator is 0.0 as well, and numpy's float
division evaluates 0.0 / 0.0 to NaN (with a warning, not an exception);
this NaN outcome of the performed division is the nan branch here. -/
def compute_similarity (e1 e2 : List ℚ) : SimFloat :=
  if normSq e1 * normSq e2 = 0 then SimFloat.nan
  else SimFloat.val (dotQ e1 e2) (normSq e1 * normSq e2)

/-- Multiplication of a similarity float by a rational scalar (the
coefficients b and c, the item weight, the decay); NaN propagates as in
float arithmetic. -/
def SimFloat.scale (k : ℚ) : SimFloat → SimFloat
  | nan => nan
  | val n r => val (k * n) r

/-- The strict less-than of Python floats on this domain: any comparison
with NaN is False; on values with positive radicands it decides
n1 / sqrt r1 < n2 / sqrt r2 by sign analysis and squaring (ltb_correct). -/
def SimFloat.ltb : SimFloat → SimFloat → Bool
  | nan, _ => false
  | _, nan => false
  | val n1 r1, val n2 r2 =>
      decide ((n1 < 0 ∧ 0 ≤ n2) ∨
        (n1 < 0 ∧ n2 < 0 ∧ n2 * n2 * r1 < n1 * n1 * r2) ∨
        (0 ≤ n1 ∧ 0 ≤ n2 ∧ n1 * n1 * r2 < n2 * n2 * r1))

/-- Python's built-in max(a, b): it returns b exactly when b > a, so a
NaN first argument wins and a NaN second argument loses, as in CPython. -/
def SimFloat.pymax (a b : SimFloat) : SimFloat := if SimFloat.ltb a b then b else a

/-- An interpretation object carrying an embedding, as the duck-typed
utterance.interpretation.embedding access in compute_saliency
(utils/saliency.py line 36) expects. -/
structure SalInterpretation where
  embedding : List ℚ
deriving DecidableEq

/-- The duck-typed item of utils/saliency.py: an embedding, a weight, a
last-accessed turn and a mutable saliency. -/
structure SalItem where
  embedding : List ℚ
  weight : ℚ
  last_accessed_turn : ℤ
  saliency : SimFloat
deriving DecidableEq

/-- The duck-typed utterance of utils/saliency.py: an embedding, an
optional interpretation (interpretation = some i models an utterance whose
interpretation attribute is present and carries an embedding) and a turn
number. -/
structure SalUtterance where
  embedding : List ℚ
  interpretation : Option SalInterpretation
  turn_number : ℤ
deriving DecidableEq

/-- compute_saliency (utils/saliency.py lines 11-48):
max(b * sim(item, interpretation-or-text), c * sim(item, text)) scaled by
the item weight and by the decay decay_factor ** max(0, turn difference),
the decay special-cased to 1.0 when decay_factor == 1.0 (line 42); the
Int.toNat of the turn difference is Python's max(0, ...) of line 41. -/
def compute_saliency (item : SalItem) (utterance : SalUtterance)
    (decay_factor b c : ℚ) : SimFloat :=
  ((SimFloat.pymax
      (SimFloat.scale b (compute_similarity item.embedding
        (match utterance.interpretation with
         | some i => i.embedding
         | none => utterance.embedding)))
      (SimFloat.scale c (compute_similarity item.embedding utterance.embedding))).scale
    item.weight).scale
    (if decay_factor ≠ 1 then
      decay_factor ^ (utterance.turn_number - item.last_accessed_turn).toNat
    else 1)

/-- recalibrate_all_saliency (utils/saliency.py lines 51-75) in
state-passing form: each item is skipped (returned untouched) when the
utterance's turn number is below the item's last_accessed_turn, and
otherwise only its saliency field is overwritten with compute_saliency. -/
def recalibrate_all_saliency (items : List SalItem) (utterance : SalUtterance)
    (decay_factor b c : ℚ) : List SalItem :=
  items.map (fun item =>
    if utterance.turn_number < item.last_accessed_turn then item
    else { item with saliency := compute_saliency item utterance decay_factor b c })

/-- Real-number denotation of a similarity float (specification side only;
the nan case is given the junk value 0 and every theorem using toReal
guards against it with nonzero-norm hypotheses). -/
noncomputable def SimFloat.toReal : SimFloat → ℝ
  | nan => 0
  | val n r => (n : ℝ) / Real.sqrt (r : ℝ)

/-- Cosine similarity over the reals, written from the specification:
dot(x, y) divided by the product of the Euclidean norms. -/
noncomputable def cosineR (x y : List ℚ) : ℝ :=
  (dotQ x y : ℝ) / (Real.sqrt ((normSq x : ℝ)) * Real.sqrt ((normSq y : ℝ)))

/-- The closed-form saliency of the specification, written from its words:
max(b * sim_interp, c * sim_text) * weight * decay_factor ^ max(0,
utterance.turn_number - item.last_accessed_turn), where sim_interp uses
the interpretation embedding when present and the utterance embedding
otherwise. -/
noncomputable def specSaliency (item : SalItem) (utterance : SalUtterance)
    (decay_factor b c : ℚ) : ℝ :=
  max ((b : ℝ) * cosineR item.embedding
        (match utterance.interpretation with
         | some i => i.embedding
         | none => utterance.embedding))
      ((c : ℝ) * cosineR item.embedding utterance.embedding) *
    (item.weight : ℝ) *
    (decay_factor : ℝ) ^ (max 0 (utterance.turn_number - item.last_accessed_turn))

theorem normSq_nonneg (v : List ℚ) : 0 ≤ normSq v := by
  unfold normSq dotQ
  induction v with
  | nil => simp
  | cons x xs ih =>
      rw [List.zipWith_cons_cons, List.sum_cons]
      exact add_nonneg (mul_self_nonneg x) ih

theorem normSq_pos (v : List ℚ) (h : normSq v ≠ 0) : 0 < normSq v :=
  lt_of_le_of_ne (normSq_nonneg v) (Ne.symm h)

theorem sqrt_cmp_aux (a b s1 s2 : ℝ) (hs1 : 0 < s1) (hs2 : 0 < s2) :
    a * s2 < b * s1 ↔
      ((a < 0 ∧ 0 ≤ b) ∨
        (a < 0 ∧ b < 0 ∧ b * b * (s1 * s1) < a * a * (s2 * s2)) ∨
        (0 ≤ a ∧ 0 ≤ b ∧ a * a * (s2 * s2) < b * b * (s1 * s1))) := by
  constructor
  · intro h
    rcases lt_or_le a 0 with ha | ha
    · rcases lt_or_le b 0 with hb | hb
      · right; left
        refine ⟨ha, hb, ?_⟩
        have hx : 0 < -a * s2 := mul_pos (neg_pos.mpr ha) hs2
        have hy : 0 < -b * s1 := mul_pos (neg_pos.mpr hb) hs1
        have hxy : -b * s1 < -a * s2 := by linarith
        nlinarith [mul_pos (sub_pos.mpr hxy) (add_pos hx hy)]
      · left
        exact ⟨ha, hb⟩
    · rcases lt_or_le b 0 with hb | hb
      · exfalso
        have h1 : b * s1 < 0 := mul_neg_of_neg_of_pos hb hs1
        have h2 : 0 ≤ a * s2 := mul_nonneg ha hs2.le
        linarith
      · right; right
        refine ⟨ha, hb, ?_⟩
        have hx : 0 ≤ a * s2 := mul_nonneg ha hs2.le
        have hsum : 0 < b * s1 + a * s2 := by linarith
        nlinarith [mul_pos (sub_pos.mpr h) hsum]
  · rintro (⟨ha, hb⟩ | ⟨ha, hb, hc⟩ | ⟨ha, hb, hc⟩)
    · calc a * s2 < 0 := mul_neg_of_neg_of_pos ha hs2
        _ ≤ b * s1 := mul_nonneg hb hs1.le
    · by_contra hcon
      push_neg at hcon
      have hx : 0 < -a * s2 := mul_pos (neg_pos.mpr ha) hs2
      have hy : 0 < -b * s1 := mul_pos (neg_pos.mpr hb) hs1
      have hxy : -a * s2 ≤ -b * s1 := by linarith
      nlinarith [mul_nonneg (sub_nonneg.mpr hxy) (add_pos hx hy).le]
    · by_contra hcon
      push_neg at hcon
      have hsum : 0 ≤ a * s2 + b * s1 :=
        add_nonneg (mul_nonneg ha hs2.le) (mul_nonneg hb hs1.le)
      nlinarith [mul_nonneg (sub_nonneg.mpr hcon) hsum]

theorem ltb_correct (n1 r1 n2 r2 : ℚ) (h1 : 0 < r1) (h2 : 0 < r2) :
    (SimFloat.ltb (SimFloat.val n1 r1) (SimFloat.val n2 r2) = true) ↔
      SimFloat.toReal (SimFloat.val n1 r1) < SimFloat.toReal (SimFloat.val n2 r2) := by
  have h1R : (0 : ℝ) < (r1 : ℝ) := by exact_mod_cast h1
  have h2R : (0 : ℝ) < (r2 : ℝ) := by exact_mod_cast h2
  have hs1 : 0 < Real.sqrt (r1 : ℝ) := Real.sqrt_pos.mpr h1R
  have hs2 : 0 < Real.sqrt (r2 : ℝ) := Real.sqrt_pos.mpr h2R
  have hq1 : Real.sqrt (r1 : ℝ) * Real.sqrt (r1 : ℝ) = (r1 : ℝ) := Real.mul_self_sqrt h1R.le
  have hq2 : Real.sqrt (r2 : ℝ) * Real.sqrt (r2 : ℝ) = (r2 : ℝ) := Real.mul_self_sqrt h2R.le
  show _ ↔ (n1 : ℝ) / Real.sqrt (r1 : ℝ) < (n2 : ℝ) / Real.sqrt (r2 : ℝ)
  rw [div_lt_div_iff₀ hs1 hs2,
    sqrt_cmp_aux (n1 : ℝ) (n2 : ℝ) (Real.sqrt (r1 : ℝ)) (Real.sqrt (r2 : ℝ)) hs1 hs2, hq1, hq2]
  show decide _ = true ↔ _
  rw [decide_eq_true_eq]
  constructor
  · rintro (⟨ha, hb⟩ | ⟨ha, hb, hc⟩ | ⟨ha, hb, hc⟩)
    · exact Or.inl ⟨by exact_mod_cast ha, by exact_mod_cast hb⟩
    · exact Or.inr (Or.inl ⟨by exact_mod_cast ha, by exact_mod_cast hb, by exact_mod_cast hc⟩)
    · exact Or.inr (Or.inr ⟨by exact_mod_cast ha, by exact_mod_cast hb, by exact_mod_cast hc⟩)
  · rintro (⟨ha, hb⟩ | ⟨ha, hb, hc⟩ | ⟨ha, hb, hc⟩)
    · exact Or.inl ⟨by exact_mod_cast ha, by exact_mod_cast hb⟩
    · exact Or.inr (Or.inl ⟨by exact_mod_cast ha, by exact_mod_cast hb, by exact_mod_cast hc⟩)
    · exact Or.inr (Or.inr ⟨by exact_mod_cast ha, by exact_mod_cast hb, by exact_mod_cast hc⟩)

theorem toReal_scale (k : ℚ) (s : SimFloat) :
    (SimFloat.scale k s).toReal = (k : ℝ) * s.toReal := by
  cases s with
  | nan => simp [SimFloat.scale, SimFloat.toReal]
  | val n r =>
      show ((k * n : ℚ) : ℝ) / Real.sqrt (r : ℝ) = (k : ℝ) * ((n : ℝ) / Real.sqrt (r : ℝ))
      push_cast
      ring

theorem toReal_pymax (n1 r1 n2 r2 : ℚ) (h1 : 0 < r1) (h2 : 0 < r2) :
    (SimFloat.pymax (SimFloat.val n1 r1) (SimFloat.val n2 r2)).toReal =
      max (SimFloat.val n1 r1).toReal (SimFloat.val n2 r2).toReal := by
  unfold SimFloat.pymax
  by_cases h : SimFloat.ltb (SimFloat.val n1 r1) (SimFloat.val n2 r2) = true
  · rw [if_pos h, max_eq_right ((ltb_correct n1 r1 n2 r2 h1 h2).mp h).le]
  · rw [if_neg h,
      max_eq_left (le_of_not_lt (fun hlt => h ((ltb_correct n1 r1 n2 r2 h1 h2).mpr hlt)))]

theorem compute_similarity_eq_val (e1 e2 : List ℚ)
    (h1 : normSq e1 ≠ 0) (h2 : normSq e2 ≠ 0) :
    compute_similarity e1 e2 = SimFloat.val (dotQ e1 e2) (normSq e1 * normSq e2) := by
  unfold compute_similarity
  rw [if_neg (mul_ne_zero h1 h2)]

theorem toReal_compute_similarity (e1 e2 : List ℚ)
    (h1 : normSq e1 ≠ 0) (h2 : normSq e2 ≠ 0) :
    (compute_similarity e1 e2).toReal = cosineR e1 e2 := by
  rw [compute_similarity_eq_val e1 e2 h1 h2]
  show ((dotQ e1 e2 : ℚ) : ℝ) / Real.sqrt ((normSq e1 * normSq e2 : ℚ) : ℝ) = _
  unfold cosineR
  rw [Rat.cast_mul, Real.sqrt_mul (by exact_mod_cast normSq_nonneg e1)]

theorem decay_cast (d : ℚ) (Δ : ℤ) :
    ((if d ≠ 1 then d ^ Δ.toNat else 1 : ℚ) : ℝ) = (d : ℝ) ^ (max 0 Δ) := by
  have hmax : max 0 Δ = ((Δ.toNat : ℤ)) := by
    rw [Int.toNat_eq_max, max_comm]
  by_cases hd : d = 1
  · have hcond : ¬ (d ≠ 1) := fun h => h hd
    rw [if_neg hcond, hd]
    simp
  · rw [if_pos hd, hmax]
    push_cast
    rw [zpow_natCast]

theorem toReal_compute_saliency (item : SalItem) (utterance : SalUtterance)
    (d b c : ℚ)
    (hitem : normSq item.embedding ≠ 0)
    (hutt : normSq utterance.embedding ≠ 0)
    (hint : ∀ i, utterance.interpretation = some i → normSq i.embedding ≠ 0) :
    (compute_saliency item utterance d b c).toReal = specSaliency item utterance d b c := by
  have hie : normSq (match utterance.interpretation with
      | some i => i.embedding
      | none => utterance.embedding) ≠ 0 := by
    cases hI : utterance.interpretation with
    | none => exact hutt
    | some i => exact hint i hI
  unfold compute_saliency specSaliency
  rw [toReal_scale, toReal_scale,
    compute_similarity_eq_val _ _ hitem hie,
    compute_similarity_eq_val _ _ hitem hutt]
  show _ = max ((b : ℝ) * cosineR item.embedding _) ((c : ℝ) * cosineR item.embedding utterance.embedding) * _ * _
  rw [show SimFloat.scale b
        (SimFloat.val (dotQ item.embedding (match utterance.interpretation with
          | some i => i.embedding
          | none => utterance.embedding))
          (normSq item.embedding * normSq (match utterance.interpretation with
            | some i => i.embedding
            | none => utterance.embedding))) =
      SimFloat.val (b * dotQ item.embedding (match utterance.interpretation with
          | some i => i.embedding
          | none => utterance.embedding))
        (normSq item.embedding * normSq (match utterance.interpretation with
          | some i => i.embedding
          | none => utterance.embedding)) from rfl,
    show SimFloat.scale c
        (SimFloat.val (dotQ item.embedding utterance.embedding)
          (normSq item.embedding * normSq utterance.embedding)) =
      SimFloat.val (c * dotQ item.embedding utterance.embedding)
        (normSq item.embedding * normSq utterance.embedding) from rfl]
  rw [toReal_pymax _ _ _ _
    (mul_pos (normSq_pos _ hitem) (normSq_pos _ hie))
    (mul_pos (normSq_pos _ hitem) (normSq_pos _ hutt))]
  rw [show SimFloat.val (b * dotQ item.embedding (match utterance.interpretation with
        | some i => i.embedding
        | none => utterance.embedding))
      (normSq item.embedding * normSq (match utterance.interpretation with
        | some i => i.embedding
        | none => utterance.embedding)) =
      SimFloat.scale b (SimFloat.val (dotQ item.embedding (match utterance.interpretation with
        | some i => i.embedding
        | none => utterance.embedding))
      (normSq item.embedding * normSq (match utterance.interpretation with
        | some i => i.embedding
        | none => utterance.embedding))) from rfl,
    show SimFloat.val (c * dotQ item.embedding utterance.embedding)
        (normSq item.embedding * normSq utterance.embedding) =
      SimFloat.scale c (SimFloat.val (dotQ item.embedding utterance.embedding)
        (normSq item.embedding * normSq utterance.embedding)) from rfl,
    toReal_scale, toReal_scale,
    ← compute_similarity_eq_val _ _ hitem hie,
    ← compute_similarity_eq_val _ _ hitem hutt,
    toReal_compute_similarity _ _ hitem hie,
    toReal_compute_similarity _ _ hitem hutt,
    decay_cast]
  ring

/-- Claim C3: recalibrate_all_saliency leaves an item wholly untouched
(saliency and last_accessed_turn included) when the utterance's turn
number is below the item's last_accessed_turn, and otherwise overwrites
exactly the saliency field with the closed-form value
max(b * sim_interp, c * sim_text) * weight * decay_factor ^ max(0, turn
difference) — decay 1 when decay_factor is 1, sim_interp against the
interpretation embedding when present and the utterance embedding
otherwise.  The nonzero-norm hypotheses restrict the statement to the
domain on which the specification's cosine similarity is defined. -/
theorem C3_recalibrate_spec (items : List SalItem) (utterance : SalUtterance) (d b c : ℚ)
    (hutt : normSq utterance.embedding ≠ 0)
    (hint : ∀ i, utterance.interpretation = some i → normSq i.embedding ≠ 0)
    (hitems : ∀ it ∈ items, it.last_accessed_turn ≤ utterance.turn_number →
      normSq it.embedding ≠ 0) :
    (recalibrate_all_saliency items utterance d b c).length = items.length ∧
    ∀ (n : ℕ) (hn : n < items.length)
      (hn2 : n < (recalibrate_all_saliency items utterance d b c).length),
      (utterance.turn_number < (items.get ⟨n, hn⟩).last_accessed_turn →
        (recalibrate_all_saliency items utterance d b c).get ⟨n, hn2⟩ = items.get ⟨n, hn⟩) ∧
      ((items.get ⟨n, hn⟩).last_accessed_turn ≤ utterance.turn_number →
        ((recalibrate_all_saliency items utterance d b c).get ⟨n, hn2⟩).last_accessed_turn =
            (items.get ⟨n, hn⟩).last_accessed_turn ∧
          ((recalibrate_all_saliency items utterance d b c).get ⟨n, hn2⟩).embedding =
            (items.get ⟨n, hn⟩).embedding ∧
          ((recalibrate_all_saliency items utterance d b c).get ⟨n, hn2⟩).weight =
            (items.get ⟨n, hn⟩).weight ∧
          SimFloat.toReal
              ((recalibrate_all_saliency items utterance d b c).get ⟨n, hn2⟩).saliency =
            specSaliency (items.get ⟨n, hn⟩) utterance d b c) := by
  refine ⟨List.length_map _ _, ?_⟩
  intro n hn hn2
  have hget : (recalibrate_all_saliency items utterance d b c).get ⟨n, hn2⟩ =
      if utterance.turn_number < (items.get ⟨n, hn⟩).last_accessed_turn then items.get ⟨n, hn⟩
      else { items.get ⟨n, hn⟩ with
             saliency := compute_saliency (items.get ⟨n, hn⟩) utterance d b c } := by
    unfold recalibrate_all_saliency
    simp [List.get_eq_getElem, List.getElem_map]
  rw [hget]
  constructor
  · intro hskip
    rw [if_pos hskip]
  · intro hup
    rw [if_neg (not_lt.mpr hup)]
    refine ⟨rfl, rfl, rfl, ?_⟩
    exact toReal_compute_saliency (items.get ⟨n, hn⟩) utterance d b c
      (hitems _ (List.get_mem _ _ _) hup) hutt hint

/-- Concrete saliency item for witnesses: embedding along the first axis,
weight 2, last accessed at turn 1. -/
def sampleItem : SalItem :=
  { embedding := [1, 0], weight := 2, last_accessed_turn := 1, saliency := SimFloat.val 0 1 }

/-- Concrete utterance for witnesses: an interpretation embedding [3, 4]
is present, the utterance embedding is [0, 1], turn 3. -/
def sampleUtt : SalUtterance :=
  { embedding := [0, 1], interpretation := some ⟨[3, 4]⟩, turn_number := 3 }

/-- Witness for C3: at the concrete item and utterance above with
decay_factor 2, the recalibrated saliency denotes exactly the closed-form
specification value. -/
theorem C3_witness :
    SimFloat.toReal
        ((recalibrate_all_saliency [sampleItem] sampleUtt 2 1 1).get ⟨0, by decide⟩).saliency =
      specSaliency sampleItem sampleUtt 2 1 1 :=
  (((C3_recalibrate_spec [sampleItem] sampleUtt 2 1 1
      (by norm_num [sampleUtt, normSq, dotQ])
      (by
        intro i hi
        rw [← Option.some.inj hi]
        norm_num [normSq, dotQ])
      (by
        intro it hit hle
        rw [List.mem_singleton.mp hit]
        norm_num [sampleItem, normSq, dotQ])).2 0 (by decide) (by decide)).2
    (by decide)).2.2.2

/-- Claim C6, amended: compute_similarity performs the division with no
zero-norm guard; whenever either embedding has zero norm the denominator
is zero and the evaluated result is the float NaN, and no
DegenerateEmbedding condition exists anywhere in the source. -/
theorem C6_zero_norm_nan (e1 e2 : List ℚ) (h : normSq e1 = 0 ∨ normSq e2 = 0) :
    compute_similarity e1 e2 = SimFloat.nan := by
  unfold compute_similarity
  rw [if_pos (mul_eq_zero.mpr h)]

/-- Witness for C6: the zero vector against a unit vector. -/
theorem C6_witness : compute_similarity [(0 : ℚ)] [(1 : ℚ)] = SimFloat.nan :=
  C6_zero_norm_nan [(0 : ℚ)] [(1 : ℚ)] (Or.inl (by simp [normSq, dotQ]))

/-- Degenerate item for the C6 counterexample: its embedding is the zero
vector. -/
def degItem : SalItem :=
  { embedding := [0, 0], weight := 1, last_accessed_turn := 0, saliency := SimFloat.val 0 1 }

/-- Non-degenerate utterance paired with degItem. -/
def degUtt : SalUtterance :=
  { embedding := [1, 0], interpretation := none, turn_number := 0 }

/-- Counterexample to claim C6 as stated: with a zero-norm item embedding
the squared-norm product is 0, yet compute_similarity evaluates to a value
— the NaN of the performed 0.0 / 0.0 division — and compute_saliency
propagates that NaN to its caller; no DegenerateEmbedding failure is
raised (no such condition exists in the source). -/
theorem C6_counterexample :
    normSq [(0 : ℚ), 0] = 0 ∧
    compute_similarity [(0 : ℚ), 0] [(1 : ℚ), 0] = SimFloat.nan ∧
    compute_saliency degItem degUtt 1 1 1 = SimFloat.nan := by
  have h0 : normSq [(0 : ℚ), 0] = 0 := by
    simp [normSq, dotQ]
  have hnan : compute_similarity [(0 : ℚ), 0] [(1 : ℚ), 0] = SimFloat.nan :=
    C6_zero_norm_nan _ _ (Or.inl h0)
  refine ⟨h0, hnan, ?_⟩
  unfold compute_saliency
  have hmatch : (match degUtt.interpretation with
      | some i => i.embedding
      | none => degUtt.embedding) = degUtt.embedding := rfl
  rw [hmatch]
  have he : degItem.embedding = [(0 : ℚ), 0] := rfl
  have hu : degUtt.embedding = [(1 : ℚ), 0] := rfl
  rw [he, hu, hnan]
  rfl

end InnerThoughts
